import Mathlib

/-!
Verification development for the LANOT volcanic-ash detector
(detect_ash.py and companions).  Floating-point band values are modelled
as `Option ℚ`: `some v` is a finite value, `none` is NaN (or any
non-finite value).  All comparisons mirror IEEE semantics at the level
the source relies on: any comparison involving NaN is false.
-/

namespace Ceniza

/-- NaN-propagating subtraction, as in `delta1 = c13 - c15` on float arrays. -/
def fsub : Option ℚ → Option ℚ → Option ℚ
  | some a, some b => some (a - b)
  | _, _ => none

/-- NaN-propagating multiplication, as in `media * dst` on float arrays. -/
def fmul : Option ℚ → Option ℚ → Option ℚ
  | some a, some b => some (a * b)
  | _, _ => none

/-- `x < c` on a possibly-NaN value: false when `x` is NaN. -/
def oLT : Option ℚ → ℚ → Bool
  | some a, c => decide (a < c)
  | none, _ => false

/-- `x > c` on a possibly-NaN value: false when `x` is NaN. -/
def oGT : Option ℚ → ℚ → Bool
  | some a, c => decide (c < a)
  | none, _ => false

/-- `x <= c` on a possibly-NaN value: false when `x` is NaN. -/
def oLE : Option ℚ → ℚ → Bool
  | some a, c => decide (a ≤ c)
  | none, _ => false

/-- `x >= c` on a possibly-NaN value: false when `x` is NaN. -/
def oGE : Option ℚ → ℚ → Bool
  | some a, c => decide (c ≤ a)
  | none, _ => false

/-- `x == c` on a possibly-NaN value: false when `x` is NaN. -/
def oEQ : Option ℚ → ℚ → Bool
  | some a, c => decide (a = c)
  | none, _ => false

/-- Texture score per pixel (detect_ash.py, `cond_nhood`/`val_nhood`,
`np.select` with first match winning, default 0).  `media` and `dst` are
the local mean and local standard deviation of `delta1` at the pixel. -/
def nhoodPix (d1 media dst : Option ℚ) : ℕ :=
  if oLT d1 0 && oLT (fsub d1 (fmul media dst)) (-1) then 1
  else if oLT d1 1 && oLT (fsub d1 (fmul media dst)) (-1) then 2
  else 0

/-- Night rule per pixel (detect_ash.py, `cond_noche`). -/
def cenizaNochePix (d1 d2 d3 : Option ℚ) (n : ℕ) : ℕ :=
  if (oLT d1 0 && oGT d2 0 && oGT d3 2) || (n == 1) then 1
  else if (oLT d1 1 && oGT d2 (-0.5) && oGT d3 2) || (n == 2) then 2
  else 0

/-- Twilight rule per pixel (detect_ash.py, `cond_crepusculo`). -/
def cenizaCrepPix (d1 d2 d3 c04 c13 : Option ℚ) (n : ℕ) : ℕ :=
  if (oLT d1 0 && oGT d2 0 && oGT d3 2) || (n == 1) then 1
  else if (oLT d1 1 && oGT d2 (-0.5) && oGT d3 2 && oGT c04 0.002 && oLT c13 273.15)
      || (n == 2) then 2
  else 0

/-- Day rule per pixel (detect_ash.py, `cond_dia`). -/
def cenizaDiaPix (d1 d2 d3 c04 : Option ℚ) (n : ℕ) : ℕ :=
  if (oLT d1 0 && oGT d2 0 && oGT d3 2) || (n == 1) then 1
  else if (oLT d1 1 && oGT d2 (-0.5) && oGT d3 2 && oGT c04 0.002) || (n == 2) then 2
  else 0

/-- Illumination dispatch per pixel (detect_ash.py, `ceniza_tiempo`:
`np.select([mask_noche, mask_crepusculo, mask_dia], ..., default=0)`,
with `mask_noche = sza > 85`, `mask_dia = sza < 70`,
`mask_crepusculo = (sza >= 70) & (sza <= 85)`). -/
def cenizaTiempoPix (d1 d2 d3 c04 c13 sza media dst : Option ℚ) : ℕ :=
  if oGT sza 85 then cenizaNochePix d1 d2 d3 (nhoodPix d1 media dst)
  else if oGE sza 70 && oLE sza 85 then
    cenizaCrepPix d1 d2 d3 c04 c13 (nhoodPix d1 media dst)
  else if oLT sza 70 then cenizaDiaPix d1 d2 d3 c04 (nhoodPix d1 media dst)
  else 0

/-- Threshold refinement U1 per pixel (detect_ash.py, `cond_um1`/`val_um1`,
default pass-through). -/
def cenizaUm1Pix (t : ℕ) (d2 : Option ℚ) : ℕ :=
  if t == 1 then 1
  else if (t == 2) && oGE d2 (-1) then 2
  else if (t == 2) && oGE d2 (-1.5) then 3
  else t

/-- Threshold refinement U2 per pixel (detect_ash.py, `cond_um2`). -/
def cenizaUm2Pix (u : ℕ) (d3 : Option ℚ) : ℕ :=
  if decide (u ≤ 2) && oLE d3 0 then 0
  else if decide (3 ≤ u) && oLE d3 1.5 then 0
  else u

/-- Cloud-phase refinement per pixel (detect_ash.py, `cond_final`/`val_final`,
`np.select` with first match winning, default pass-through). -/
def phaseRefinePix (u : ℕ) (phase : Option ℚ) : ℕ :=
  if (u == 2) && oEQ phase 1 then 3
  else if (u == 2) && oEQ phase 4 then 0
  else if (u == 3) && oEQ phase 1 then 0
  else if (u == 3) && oGE phase 2 then 0
  else u

/-- The complete staged per-pixel classification chain of detect_ash.py
(before the nodata overwrite). -/
def classifyPix (d1 d2 d3 c04 c13 sza media dst phase : Option ℚ) : ℕ :=
  phaseRefinePix
    (cenizaUm2Pix
      (cenizaUm1Pix (cenizaTiempoPix d1 d2 d3 c04 c13 sza media dst) d2)
      d3)
    phase

/-- Valid-pixel mask (detect_ash.py, `valid_data_mask`): elementwise AND of
finiteness across the six bands, the phase product and the computed
latitude and longitude. -/
def validMask (c04 c07 c11 c13 c14 c15 phase lat lon : Option ℚ) : Bool :=
  c04.isSome && c07.isSome && c11.isSome && c13.isSome && c14.isSome &&
    c15.isSome && phase.isSome && lon.isSome && lat.isSome

/-- Per-pixel value of the output raster of one moment before writing:
the brightness-temperature differences are formed from the bands, the
staged classification is run, and pixels outside the valid-pixel mask are
overwritten with the nodata code 255
(detect_ash.py, `ceniza[~valid_data_mask] = 255`). -/
def pixelOutput (c04 c07 c11 c13 c14 c15 phase lat lon media dst sza : Option ℚ) : ℕ :=
  let d1 := fsub c13 c15
  let d2 := fsub c11 c13
  let d3 := fsub c07 c13
  let code := classifyPix d1 d2 d3 c04 c13 sza media dst phase
  if validMask c04 c07 c11 c13 c14 c15 phase lat lon then code else 255

theorem nhoodPix_le (d1 media dst : Option ℚ) : nhoodPix d1 media dst ≤ 2 := by
  unfold nhoodPix
  split <;> [omega; skip]
  split <;> omega

theorem cenizaNochePix_le (d1 d2 d3 : Option ℚ) (n : ℕ) :
    cenizaNochePix d1 d2 d3 n ≤ 2 := by
  unfold cenizaNochePix
  split <;> [omega; skip]
  split <;> omega

theorem cenizaCrepPix_le (d1 d2 d3 c04 c13 : Option ℚ) (n : ℕ) :
    cenizaCrepPix d1 d2 d3 c04 c13 n ≤ 2 := by
  unfold cenizaCrepPix
  split <;> [omega; skip]
  split <;> omega

theorem cenizaDiaPix_le (d1 d2 d3 c04 : Option ℚ) (n : ℕ) :
    cenizaDiaPix d1 d2 d3 c04 n ≤ 2 := by
  unfold cenizaDiaPix
  split <;> [omega; skip]
  split <;> omega

theorem cenizaTiempoPix_le (d1 d2 d3 c04 c13 sza media dst : Option ℚ) :
    cenizaTiempoPix d1 d2 d3 c04 c13 sza media dst ≤ 2 := by
  unfold cenizaTiempoPix
  split
  · exact cenizaNochePix_le _ _ _ _
  split
  · exact cenizaCrepPix_le _ _ _ _ _ _
  split
  · exact cenizaDiaPix_le _ _ _ _ _
  · omega

theorem cenizaUm1Pix_le (t : ℕ) (d2 : Option ℚ) (ht : t ≤ 2) :
    cenizaUm1Pix t d2 ≤ 3 := by
  unfold cenizaUm1Pix
  split <;> [omega; skip]
  split <;> [omega; skip]
  split <;> omega

theorem cenizaUm2Pix_le (u : ℕ) (d3 : Option ℚ) (hu : u ≤ 3) :
    cenizaUm2Pix u d3 ≤ 3 := by
  unfold cenizaUm2Pix
  split <;> [omega; skip]
  split <;> omega

theorem phaseRefinePix_le (u : ℕ) (phase : Option ℚ) (hu : u ≤ 3) :
    phaseRefinePix u phase ≤ 3 := by
  unfold phaseRefinePix
  split <;> [omega; skip]
  split <;> [omega; skip]
  split <;> [omega; skip]
  split <;> omega

theorem classifyPix_le (d1 d2 d3 c04 c13 sza media dst phase : Option ℚ) :
    classifyPix d1 d2 d3 c04 c13 sza media dst phase ≤ 3 := by
  unfold classifyPix
  exact phaseRefinePix_le _ _
    (cenizaUm2Pix_le _ _
      (cenizaUm1Pix_le _ _ (cenizaTiempoPix_le d1 d2 d3 c04 c13 sza media dst)))

/-- Claim C1: for every output raster produced by one moment, a pixel holds
the nodata code 255 if and only if that pixel is outside the valid-pixel
mask (the elementwise AND of finiteness of c04, c07, c11, c13, c14, c15,
phase, lat and lon); in particular a pixel with NaN in c11 emits 255
regardless of the other bands, and no valid pixel ever holds 255. -/
theorem C1_nodata_iff_invalid
    (c04 c07 c11 c13 c14 c15 phase lat lon media dst sza : Option ℚ) :
    pixelOutput c04 c07 c11 c13 c14 c15 phase lat lon media dst sza = 255 ↔
      validMask c04 c07 c11 c13 c14 c15 phase lat lon = false := by
  unfold pixelOutput
  by_cases h : validMask c04 c07 c11 c13 c14 c15 phase lat lon = true
  · simp only [h, if_true]
    constructor
    · intro hcode
      have := classifyPix_le (fsub c13 c15) (fsub c11 c13) (fsub c07 c13)
        c04 c13 sza media dst phase
      omega
    · intro hfalse
      exact absurd hfalse (by simp)
  · have hf : validMask c04 c07 c11 c13 c14 c15 phase lat lon = false := by
      cases hv : validMask c04 c07 c11 c13 c14 c15 phase lat lon
      · rfl
      · exact absurd hv h
    simp only [hf, if_false]
    simp

/-- Claim C2: for the pixel inputs c13=290, c15=292, c11=293, c07=295,
c04=0.001, phase=0, sza=100 (so delta1=-2, delta2=3, delta3=5) inside the
valid-pixel mask, the night rule fires with R=1, U1 keeps 1, U2 keeps 1,
the phase refinement leaves it unchanged, and the final output code is 1. -/
theorem C2_night_clean_ash (media dst : Option ℚ) (c14v lat lon : ℚ) :
    cenizaTiempoPix (fsub (some 290) (some 292)) (fsub (some 293) (some 290))
        (fsub (some 295) (some 290)) (some 0.001) (some 290) (some 100) media dst = 1 ∧
    cenizaUm1Pix 1 (fsub (some 293) (some 290)) = 1 ∧
    cenizaUm2Pix 1 (fsub (some 295) (some 290)) = 1 ∧
    phaseRefinePix 1 (some 0) = 1 ∧
    pixelOutput (some 0.001) (some 295) (some 293) (some 290) (some c14v)
      (some 292) (some 0) (some lat) (some lon) media dst (some 100) = 1 := by
  have hd1 : fsub (some (290 : ℚ)) (some 292) = some (-2) := by
    unfold fsub; norm_num
  have hd2 : fsub (some (293 : ℚ)) (some 290) = some 3 := by
    unfold fsub; norm_num
  have hd3 : fsub (some (295 : ℚ)) (some 290) = some 5 := by
    unfold fsub; norm_num
  have hnight : cenizaTiempoPix (some (-2)) (some 3) (some 5)
      (some 0.001) (some 290) (some 100) media dst = 1 := by
    unfold cenizaTiempoPix cenizaNochePix
    norm_num [oGT, oLT]
  refine ⟨?_, by unfold cenizaUm1Pix; norm_num, ?_, by unfold phaseRefinePix; norm_num, ?_⟩
  · rw [hd1, hd2, hd3]; exact hnight
  · rw [hd3]
    unfold cenizaUm2Pix
    norm_num [oLE]
  · unfold pixelOutput classifyPix validMask
    simp only [Option.isSome_some, Bool.and_self, if_true, hd1, hd2, hd3]
    rw [hnight]
    unfold cenizaUm1Pix cenizaUm2Pix phaseRefinePix
    norm_num [oLE]

/-- Claim C3: the phase refinement maps (U2=2, phase=1) to 3,
(U2=2, phase=4) to 0, (U2=3, phase=1) to 0, (U2=3, phase>=2) to 0, and
leaves U2 unchanged otherwise; consequently the final raster only ever
contains the codes 0, 1, 2, 3 and 255 and the classifier never emits
4 or 5. -/
theorem C3_phase_refinement
    (c04 c07 c11 c13 c14 c15 phase lat lon media dst sza : Option ℚ) :
    phaseRefinePix 2 (some 1) = 3 ∧
    phaseRefinePix 2 (some 4) = 0 ∧
    phaseRefinePix 3 (some 1) = 0 ∧
    (∀ q : ℚ, 2 ≤ q → phaseRefinePix 3 (some q) = 0) ∧
    (∀ (u : ℕ) (p : Option ℚ),
      (u ≠ 2 ∨ (p ≠ some 1 ∧ p ≠ some 4)) →
      (u ≠ 3 ∨ (p ≠ some 1 ∧ ∀ q : ℚ, p = some q → q < 2)) →
      phaseRefinePix u p = u) ∧
    (pixelOutput c04 c07 c11 c13 c14 c15 phase lat lon media dst sza ≤ 3 ∨
      pixelOutput c04 c07 c11 c13 c14 c15 phase lat lon media dst sza = 255) := by
  refine ⟨by unfold phaseRefinePix; norm_num [oEQ],
          by unfold phaseRefinePix; norm_num [oEQ],
          by unfold phaseRefinePix; norm_num [oEQ], ?_, ?_, ?_⟩
  · intro q hq
    unfold phaseRefinePix
    rcases eq_or_lt_of_le hq with h | h
    · norm_num [oEQ, oGE, ← h]
    · have h1 : ¬ (q = 1) := by intro hc; rw [hc] at h; norm_num at h
      have h4 : decide ((2 : ℚ) ≤ q) = true := by simp [le_of_lt h]
      simp [oEQ, oGE, h1, h4]
  · intro u p h2 h3
    unfold phaseRefinePix
    rcases h2 with h2 | ⟨h21, h24⟩
    · have hu2 : (u == 2) = false := by simp [h2]
      rcases h3 with h3 | ⟨h31, h32⟩
      · have hu3 : (u == 3) = false := by simp [h3]
        simp [hu2, hu3]
      · have hp1 : oEQ p 1 = false := by
          cases p with
          | none => rfl
          | some q => simp only [oEQ, decide_eq_false_iff_not]
                      intro hc; exact h31 (by rw [hc])
        have hpg : oGE p 2 = false := by
          cases p with
          | none => rfl
          | some q => simp only [oGE, decide_eq_false_iff_not]
                      exact not_le.mpr (h32 q rfl)
        simp [hu2, hp1, hpg]
    · have hp1 : oEQ p 1 = false := by
        cases p with
        | none => rfl
        | some q => simp only [oEQ, decide_eq_false_iff_not]
                    intro hc; exact h21 (by rw [hc])
      have hp4 : oEQ p 4 = false := by
        cases p with
        | none => rfl
        | some q => simp only [oEQ, decide_eq_false_iff_not]
                    intro hc; exact h24 (by rw [hc])
      rcases h3 with h3 | ⟨h31, h32⟩
      · have hu3 : (u == 3) = false := by simp [h3]
        simp [hp1, hp4, hu3]
      · have hpg : oGE p 2 = false := by
          cases p with
          | none => rfl
          | some q => simp only [oGE, decide_eq_false_iff_not]
                      exact not_le.mpr (h32 q rfl)
        simp [hp1, hp4, hpg]
  · unfold pixelOutput
    by_cases h : validMask c04 c07 c11 c13 c14 c15 phase lat lon = true
    · left
      simp only [h, if_true]
      exact classifyPix_le _ _ _ _ _ _ _ _ _
    · right
      have hf : validMask c04 c07 c11 c13 c14 c15 phase lat lon = false := by
        cases hv : validMask c04 c07 c11 c13 c14 c15 phase lat lon
        · rfl
        · exact absurd hv h
      simp [hf]

/-- Witness for C3 at concrete inputs: the phase-q-at-least-2 case and the
pass-through case evaluated at explicit values. -/
theorem C3_phase_refinement_witness :
    phaseRefinePix 3 (some 5) = 0 ∧ phaseRefinePix 2 (some 0) = 2 := by
  have h := C3_phase_refinement none none none none none none none none none
    none none none
  exact ⟨h.2.2.2.1 5 (by norm_num),
    h.2.2.2.2.1 2 (some 0)
      (Or.inr ⟨by simp, by simp⟩)
      (Or.inl (by omega))⟩

/-- In-bounds test for a rows x cols grid with integer indices. -/
def inBounds (rows cols : ℕ) (i j : ℤ) : Bool :=
  decide (0 ≤ i ∧ i < (rows : ℤ) ∧ 0 ≤ j ∧ j < (cols : ℤ))

/-- Square window of offsets for a kernel of size k: radius k / 2 in each
axis, as used by scipy.ndimage uniform_filter and generic_filter for odd k. -/
def win (k : ℕ) : Finset (ℤ × ℤ) :=
  Finset.Icc (-((k / 2 : ℕ) : ℤ)) ((k / 2 : ℕ) : ℤ) ×ˢ
    Finset.Icc (-((k / 2 : ℕ) : ℤ)) ((k / 2 : ℕ) : ℤ)

/-- genera_media_dst: V is the input with NaN replaced by 0, and positions
outside the array read 0 (uniform_filter mode constant, cval 0). -/
def sampleV (A : ℤ → ℤ → Option ℚ) (rows cols : ℕ) (i j : ℤ) : ℚ :=
  if inBounds rows cols i j then (A i j).getD 0 else 0

/-- genera_media_dst: N is 1 at finite samples and 0 at NaN, and positions
outside the array read 0. -/
def sampleN (A : ℤ → ℤ → Option ℚ) (rows cols : ℕ) (i j : ℤ) : ℚ :=
  if inBounds rows cols i j && (A i j).isSome then 1 else 0

/-- genera_media_dst: `suma_local = uniform_filter(V, size=k, mode="constant",
cval=0) * k**2`; over exact arithmetic the division by the window area inside
uniform_filter and the multiplication by `k**2` cancel, leaving the window sum. -/
def sumaLocal (A : ℤ → ℤ → Option ℚ) (rows cols k : ℕ) (i j : ℤ) : ℚ :=
  ∑ p in win k, sampleV A rows cols (i + p.1) (j + p.2)

/-- genera_media_dst: `conteo_local = uniform_filter(N, ...) * k**2`, the count
of finite in-bounds samples in the window. -/
def conteoLocal (A : ℤ → ℤ → Option ℚ) (rows cols k : ℕ) (i j : ℤ) : ℚ :=
  ∑ p in win k, sampleN A rows cols (i + p.1) (j + p.2)

/-- genera_media_dst: `kernel_media = np.divide(suma_local, conteo_local,
where=conteo_local!=0, out=np.full(shape, np.nan))`. -/
def kernelMedia (A : ℤ → ℤ → Option ℚ) (rows cols k : ℕ) (i j : ℤ) : Option ℚ :=
  if conteoLocal A rows cols k i j = 0 then none
  else some (sumaLocal A rows cols k i j / conteoLocal A rows cols k i j)

/-- The positions of the window centered at (i, j) that are inside the array
and hold a finite sample (stated from the claim, to compare with the
uniform-filter computation above). -/
def winFinite (A : ℤ → ℤ → Option ℚ) (rows cols k : ℕ) (i j : ℤ) : Finset (ℤ × ℤ) :=
  (win k).filter
    (fun p => inBounds rows cols (i + p.1) (j + p.2) && (A (i + p.1) (j + p.2)).isSome)

theorem conteoLocal_eq_card (A : ℤ → ℤ → Option ℚ) (rows cols k : ℕ) (i j : ℤ) :
    conteoLocal A rows cols k i j = ((winFinite A rows cols k i j).card : ℚ) := by
  unfold conteoLocal sampleN winFinite
  rw [Finset.sum_boole]

theorem sumaLocal_eq_sum (A : ℤ → ℤ → Option ℚ) (rows cols k : ℕ) (i j : ℤ) :
    sumaLocal A rows cols k i j =
      ∑ p in winFinite A rows cols k i j, (A (i + p.1) (j + p.2)).getD 0 := by
  unfold sumaLocal winFinite
  rw [Finset.sum_filter]
  refine Finset.sum_congr rfl ?_
  intro p _
  cases hb : inBounds rows cols (i + p.1) (j + p.2) with
  | false => simp [sampleV, hb]
  | true =>
    cases ha : A (i + p.1) (j + p.2) with
    | none => simp [sampleV, hb, ha]
    | some v => simp [sampleV, hb, ha]

/-- Claim C4: the local mean returned by the texture filter at (i, j) for an
odd kernel size equals the arithmetic mean of the finite entries of the k x k
window centered at (i, j) (windows shrunk at the boundary), is NaN exactly
when that window contains no finite entry, and for an all-finite input with
the window in the interior it is the plain box mean. -/
theorem C4_local_mean (A : ℤ → ℤ → Option ℚ) (rows cols k : ℕ) (i j : ℤ)
    (hk : k % 2 = 1) :
    (kernelMedia A rows cols k i j = none ↔ winFinite A rows cols k i j = ∅) ∧
    (winFinite A rows cols k i j ≠ ∅ →
      kernelMedia A rows cols k i j =
        some ((∑ p in winFinite A rows cols k i j, (A (i + p.1) (j + p.2)).getD 0) /
          ((winFinite A rows cols k i j).card : ℚ))) ∧
    ((∀ p ∈ win k, inBounds rows cols (i + p.1) (j + p.2) = true ∧
        (A (i + p.1) (j + p.2)).isSome = true) →
      kernelMedia A rows cols k i j =
        some ((∑ p in win k, (A (i + p.1) (j + p.2)).getD 0) / ((k * k : ℕ) : ℚ))) := by
  have hcnt := conteoLocal_eq_card A rows cols k i j
  have hsum := sumaLocal_eq_sum A rows cols k i j
  have h1 : kernelMedia A rows cols k i j = none ↔ winFinite A rows cols k i j = ∅ := by
    unfold kernelMedia
    constructor
    · intro h
      by_cases hc : conteoLocal A rows cols k i j = 0
      · rw [hcnt] at hc
        exact Finset.card_eq_zero.mp (by exact_mod_cast hc)
      · rw [if_neg hc] at h
        exact absurd h (by simp)
    · intro h
      rw [if_pos (by rw [hcnt, h]; simp)]
  have h2 : winFinite A rows cols k i j ≠ ∅ →
      kernelMedia A rows cols k i j =
        some ((∑ p in winFinite A rows cols k i j, (A (i + p.1) (j + p.2)).getD 0) /
          ((winFinite A rows cols k i j).card : ℚ)) := by
    intro hne
    have hc0 : (winFinite A rows cols k i j).card ≠ 0 := by
      simpa [Finset.card_eq_zero] using hne
    have hc : conteoLocal A rows cols k i j ≠ 0 := by
      rw [hcnt]
      exact_mod_cast hc0
    unfold kernelMedia
    rw [if_neg hc, hsum, hcnt]
  refine ⟨h1, h2, ?_⟩
  intro hall
  have hwf : winFinite A rows cols k i j = win k := by
    unfold winFinite
    apply Finset.filter_true_of_mem
    intro p hp
    have := hall p hp
    simp [this.1, this.2]
  have hcard : (win k).card = k * k := by
    unfold win
    have hx : ((k / 2 : ℕ) : ℤ) + 1 - (-((k / 2 : ℕ) : ℤ)) = (k : ℤ) := by
      push_cast
      omega
    rw [Finset.card_product, Int.card_Icc, hx, Int.toNat_natCast]
  have hne : winFinite A rows cols k i j ≠ ∅ := by
    rw [hwf]
    apply Finset.nonempty_iff_ne_empty.mp
    refine ⟨(0, 0), ?_⟩
    unfold win
    rw [Finset.mem_product]
    constructor <;> rw [Finset.mem_Icc] <;> omega
  rw [h2 hne, hwf, hcard]

/-- Witness for C4 at a concrete 1 x 2 array with one finite and one NaN
entry and kernel size 1. -/
theorem C4_local_mean_witness :
    1 % 2 = 1 ∧
    ((kernelMedia (fun i j => if i = 0 ∧ j = 0 then some 2 else none) 1 2 1 0 0 = none ↔
        winFinite (fun i j => if i = 0 ∧ j = 0 then some 2 else none) 1 2 1 0 0 = ∅) ∧
      (winFinite (fun i j => if i = 0 ∧ j = 0 then some 2 else none) 1 2 1 0 0 ≠ ∅ →
        kernelMedia (fun i j => if i = 0 ∧ j = 0 then some 2 else none) 1 2 1 0 0 =
          some ((∑ p in winFinite (fun i j => if i = 0 ∧ j = 0 then some 2 else none) 1 2 1 0 0,
              ((fun (i j : ℤ) => if i = 0 ∧ j = 0 then some (2 : ℚ) else none)
                (0 + p.1) (0 + p.2)).getD 0) /
            ((winFinite (fun i j => if i = 0 ∧ j = 0 then some 2 else none) 1 2 1 0 0).card : ℚ))) ∧
      ((∀ p ∈ win 1, inBounds 1 2 (0 + p.1) (0 + p.2) = true ∧
          ((fun (i j : ℤ) => if i = 0 ∧ j = 0 then some (2 : ℚ) else none)
            (0 + p.1) (0 + p.2)).isSome = true) →
        kernelMedia (fun i j => if i = 0 ∧ j = 0 then some 2 else none) 1 2 1 0 0 =
          some ((∑ p in win 1,
              ((fun (i j : ℤ) => if i = 0 ∧ j = 0 then some (2 : ℚ) else none)
                (0 + p.1) (0 + p.2)).getD 0) / ((1 * 1 : ℕ) : ℚ)))) :=
  ⟨by decide, C4_local_mean (fun i j => if i = 0 ∧ j = 0 then some 2 else none) 1 2 1 0 0 (by decide)⟩

/-- A sample for generic_filter with mode constant and cval NaN: positions
outside the array read NaN. -/
def sampleF (A : ℤ → ℤ → Option ℚ) (rows cols : ℕ) (i j : ℤ) : Option ℚ :=
  if inBounds rows cols i j then A i j else none

/-- Row (or column) offsets of a size-k window centered at the output pixel:
-(k / 2), ..., k - 1 - k / 2. -/
def offsets (k : ℕ) : List ℤ :=
  (List.range k).map (fun n : ℕ => (n : ℤ) - ((k / 2 : ℕ) : ℤ))

/-- The window offsets in row-major order. -/
def offPairs (k : ℕ) : List (ℤ × ℤ) :=
  (offsets k).flatMap (fun a => (offsets k).map (fun b => (a, b)))

/-- The window samples generic_filter hands to its statistic at (i, j), in
row-major window order. -/
def windowSamples (A : ℤ → ℤ → Option ℚ) (rows cols k : ℕ) (i j : ℤ) :
    List (Option ℚ) :=
  (offPairs k).map (fun p => sampleF A rows cols (i + p.1) (j + p.2))

theorem mem_offsets {k : ℕ} {a : ℤ} (h : a ∈ offsets k) :
    -(((k / 2 : ℕ)) : ℤ) ≤ a ∧ a ≤ (k : ℤ) - 1 - ((k / 2 : ℕ) : ℤ) := by
  unfold offsets at h
  simp only [List.mem_map, List.mem_range] at h
  obtain ⟨n, hn, rfl⟩ := h
  omega

/-- scipy.ndimage.generic_filter with mode constant and cval NaN, abstracted
over the window statistic g (np.nanstd in genera_media_dst and
_process_block_std; g sees NaN samples as none). -/
def genericFilter (g : List (Option ℚ) → Option ℚ) (A : ℤ → ℤ → Option ℚ)
    (rows cols k : ℕ) (i j : ℤ) : Option ℚ :=
  g (windowSamples A rows cols k i j)

/-- genera_media_dst parallel path: `start_row = i * rows_per_block`. -/
def startRow (rpb i : ℕ) : ℕ := i * rpb

/-- genera_media_dst parallel path: `end_row = (i + 1) * rows_per_block`,
except the last block which is extended to the full height. -/
def endRow (rows rpb nb i : ℕ) : ℕ :=
  if i = nb - 1 then rows else (i + 1) * rpb

/-- genera_media_dst parallel path:
`block_start = max(0, start_row - overlap)` with `overlap = k // 2`;
truncated natural subtraction is exactly that max. -/
def blockLo (rpb k i : ℕ) : ℕ := startRow rpb i - k / 2

/-- genera_media_dst parallel path: `block_end = min(rows, end_row + overlap)`. -/
def blockHi (rows rpb nb k i : ℕ) : ℕ :=
  min rows (endRow rows rpb nb i + k / 2)

/-- The materialized block `arreglo[block_start:block_end, :]` in local row
coordinates. -/
def blockOf (A : ℤ → ℤ → Option ℚ) (lo : ℕ) : ℤ → ℤ → Option ℚ :=
  fun t j => A ((lo : ℕ) + t) j

/-- The value the parallel path reassembles: _process_block_std filters the
materialized block of block i, and genera_media_dst copies local row
`offset + (t - start_row) = t - block_start` into global row t. -/
def blockResult (g : List (Option ℚ) → Option ℚ) (A : ℤ → ℤ → Option ℚ)
    (rows cols k rpb nb i : ℕ) (tLocal j : ℤ) : Option ℚ :=
  genericFilter g (blockOf A (blockLo rpb k i))
    (blockHi rows rpb nb k i - blockLo rpb k i) cols k tLocal j

theorem windowSamples_block_eq (A : ℤ → ℤ → Option ℚ) (rows cols k r : ℕ)
    (hk : k = 2 * r + 1) (s e t : ℕ) (j : ℤ)
    (hs : s ≤ t) (ht : t < e) :
    windowSamples (blockOf A (s - r)) (min rows (e + r) - (s - r)) cols k
        ((t : ℤ) - ((s - r : ℕ) : ℤ)) j =
      windowSamples A rows cols k (t : ℤ) j := by
  unfold windowSamples
  apply List.map_congr_left
  intro p hp
  unfold offPairs at hp
  rw [List.mem_flatMap] at hp
  obtain ⟨a, ha, hp⟩ := hp
  rw [List.mem_map] at hp
  obtain ⟨b, hb, rfl⟩ := hp
  obtain ⟨ha1, ha2⟩ := mem_offsets ha
  obtain ⟨hb1, hb2⟩ := mem_offsets hb
  have hr : k / 2 = r := by omega
  rw [hr] at ha1 ha2 hb1 hb2
  unfold sampleF blockOf
  have hcond : inBounds (min rows (e + r) - (s - r)) cols
      ((t : ℤ) - ((s - r : ℕ) : ℤ) + a) (j + b) =
      inBounds rows cols ((t : ℤ) + a) (j + b) := by
    unfold inBounds
    rw [decide_eq_decide]
    omega
  have harg : ((s - r : ℕ) : ℤ) + ((t : ℤ) - ((s - r : ℕ) : ℤ) + a) =
      (t : ℤ) + a := by ring
  rw [hcond, harg]

/-- Claim C5: for every input array and odd kernel size, the parallel
evaluation of the local standard deviation (partitioning the rows into
blocks with a halo of k / 2 rows, filtering each block independently with
the generic filter, and reassembling the interior rows) returns exactly the
same array as the sequential generic filter over the whole array — for every
block, every interior row and column, including blocks shorter than the
halo; moreover the block tiles start at row 0, are consecutive, end at the
last row, and cover every row. -/
theorem C5_parallel_std_eq (g : List (Option ℚ) → Option ℚ)
    (A : ℤ → ℤ → Option ℚ) (rows cols k r rpb nb : ℕ)
    (hk : k = 2 * r + 1) (hnb : 1 ≤ nb) (hrpb : rpb = rows / nb) :
    (∀ (i t : ℕ) (j : ℤ), i < nb → startRow rpb i ≤ t → t < endRow rows rpb nb i →
      blockResult g A rows cols k rpb nb i ((t : ℤ) - ((blockLo rpb k i : ℕ) : ℤ)) j =
        genericFilter g A rows cols k (t : ℤ) j) ∧
    startRow rpb 0 = 0 ∧
    endRow rows rpb nb (nb - 1) = rows ∧
    (∀ i : ℕ, i + 1 < nb → endRow rows rpb nb i = startRow rpb (i + 1)) ∧
    (∀ t : ℕ, t < rows →
      ∃ i : ℕ, i < nb ∧ startRow rpb i ≤ t ∧ t < endRow rows rpb nb i) := by
  refine ⟨?_, by simp [startRow], by simp [endRow], ?_, ?_⟩
  · intro i t j hi hs ht
    unfold blockResult genericFilter blockLo blockHi
    have hr : k / 2 = r := by omega
    rw [hr]
    rw [windowSamples_block_eq A rows cols k r hk (startRow rpb i)
      (endRow rows rpb nb i) t j hs ht]
  · intro i hlt
    unfold endRow startRow
    have : ¬ (i = nb - 1) := by omega
    simp [this]
  · intro t ht
    by_cases hr0 : rpb = 0
    · refine ⟨nb - 1, by omega, ?_, ?_⟩
      · unfold startRow
        simp [hr0]
      · unfold endRow
        simp [ht]
    · by_cases hq : t / rpb < nb - 1
      · refine ⟨t / rpb, by omega, ?_, ?_⟩
        · unfold startRow
          exact Nat.div_mul_le_self t rpb
        · unfold endRow
          have hne : ¬ (t / rpb = nb - 1) := by omega
          rw [if_neg hne]
          have h1 := Nat.div_add_mod t rpb
          have h2 : t % rpb < rpb := Nat.mod_lt _ (Nat.pos_of_ne_zero hr0)
          have h3 : (t / rpb + 1) * rpb = rpb * (t / rpb) + rpb := by ring
          linarith
      · refine ⟨nb - 1, by omega, ?_, ?_⟩
        · unfold startRow
          have h1 : (nb - 1) * rpb ≤ (t / rpb) * rpb :=
            Nat.mul_le_mul_right _ (by omega)
          have h2 : (t / rpb) * rpb ≤ t := Nat.div_mul_le_self t rpb
          omega
        · unfold endRow
          simp [ht]

/-- Witness for C5 at a concrete 2 x 1 all-finite array, kernel size 1,
one block, and a counting statistic. -/
theorem C5_parallel_std_eq_witness :
    1 = 2 * 0 + 1 ∧ 1 ≤ 1 ∧ 2 = 2 / 1 ∧
    ((∀ (i t : ℕ) (j : ℤ), i < 1 → startRow 2 i ≤ t → t < endRow 2 2 1 i →
      blockResult (fun l => some ((l.length : ℚ))) (fun _ _ => some 1) 2 1 1 2 1 i
          ((t : ℤ) - ((blockLo 2 1 i : ℕ) : ℤ)) j =
        genericFilter (fun l => some ((l.length : ℚ))) (fun _ _ => some 1) 2 1 1 (t : ℤ) j) ∧
    startRow 2 0 = 0 ∧
    endRow 2 2 1 (1 - 1) = 2 ∧
    (∀ i : ℕ, i + 1 < 1 → endRow 2 2 1 i = startRow 2 (i + 1)) ∧
    (∀ t : ℕ, t < 2 →
      ∃ i : ℕ, i < 1 ∧ startRow 2 i ≤ t ∧ t < endRow 2 2 1 i)) :=
  ⟨by decide, by decide, by decide,
    C5_parallel_std_eq (fun l => some ((l.length : ℚ))) (fun _ _ => some 1)
      2 1 1 0 2 1 (by decide) (by decide) (by decide)⟩

/-- Parse errors of parse_moment_string: the spec names the two raise sites
BadFormat and BadRange. -/
inductive MomentParseError where
  | badFormat : MomentParseError
  | badRange : MomentParseError

/-- Loop body of the range expansion in parse_moment_string: while
current <= end, append current and advance 5 minutes.  The loop is bounded
by fuel here; `expandRange5` supplies fuel e + 1 - s, which
`expandLoop_length` shows never runs out. -/
def expandLoop : ℕ → ℕ → ℕ → List ℕ
  | 0, _, _ => []
  | fuel + 1, s, e => if s ≤ e then s :: expandLoop fuel (s + 5) e else []

/-- Range expansion at the fixed 5-minute stride, on minutes of the day
(both endpoints of a range share the base date, so the datetime arithmetic
of the source reduces to minutes of the day). -/
def expandRange5 (s e : ℕ) : List ℕ := expandLoop (e + 1 - s) s e

/-- parse_moment_string on a 16- or 17-character range string after the date
and time fields have been read (strptime succeeded): raise BadRange when
start > end, else expand at the 5-minute stride. -/
def parseRange (startHH startMM endHH endMM : ℕ) :
    Except MomentParseError (List ℕ) :=
  let s := startHH * 60 + startMM
  let e := endHH * 60 + endMM
  if e < s then Except.error MomentParseError.badRange
  else Except.ok (expandRange5 s e)

theorem expandLoop_nil (fuel s e : ℕ) (h : e < s) : expandLoop fuel s e = [] := by
  cases fuel with
  | zero => rfl
  | succ f =>
    simp only [expandLoop]
    rw [if_neg (by omega)]

theorem expandLoop_length :
    ∀ fuel s e : ℕ, e + 1 - s ≤ fuel → s ≤ e →
      (expandLoop fuel s e).length = (e - s) / 5 + 1 := by
  intro fuel
  induction fuel with
  | zero => intro s e h1 h2; omega
  | succ f ih =>
    intro s e h1 h2
    simp only [expandLoop]
    rw [if_pos h2, List.length_cons]
    by_cases h5 : s + 5 ≤ e
    · rw [ih (s + 5) e (by omega) h5]
      omega
    · rw [expandLoop_nil f (s + 5) e (by omega)]
      simp only [List.length_nil]
      omega

/-- Claim C6: for every valid range string (16 or 17 characters), parse
expands the range at a 5-minute stride inclusive of both endpoints, so the
returned list has length (end - start) / 5min + 1; it fails with BadRange
when start > end, and a range with start = end yields exactly one moment. -/
theorem C6_range_expansion (startHH startMM endHH endMM : ℕ)
    (hsh : startHH < 24) (hsm : startMM < 60) (heh : endHH < 24) (hem : endMM < 60) :
    (startHH * 60 + startMM ≤ endHH * 60 + endMM →
      parseRange startHH startMM endHH endMM =
        Except.ok (expandRange5 (startHH * 60 + startMM) (endHH * 60 + endMM)) ∧
      (expandRange5 (startHH * 60 + startMM) (endHH * 60 + endMM)).length =
        ((endHH * 60 + endMM) - (startHH * 60 + startMM)) / 5 + 1) ∧
    (endHH * 60 + endMM < startHH * 60 + startMM →
      parseRange startHH startMM endHH endMM =
        Except.error MomentParseError.badRange) ∧
    (startHH * 60 + startMM = endHH * 60 + endMM →
      parseRange startHH startMM endHH endMM =
        Except.ok [startHH * 60 + startMM]) := by
  refine ⟨?_, ?_, ?_⟩
  · intro hle
    constructor
    · unfold parseRange
      rw [if_neg (by omega)]
    · exact expandLoop_length _ _ _ (le_refl _) hle
  · intro hlt
    unfold parseRange
    rw [if_pos (by omega)]
  · intro heq
    unfold parseRange
    rw [if_neg (by omega)]
    unfold expandRange5
    rw [show (endHH * 60 + endMM) + 1 - (startHH * 60 + startMM) = 1 by omega]
    simp only [expandLoop]
    rw [if_pos (by omega), heq]

/-- Witness for C6 on the range 0800-1430: 79 moments. -/
theorem C6_range_expansion_witness :
    (8 < 24 ∧ 0 < 60 ∧ 14 < 24 ∧ 30 < 60) ∧
    (expandRange5 (8 * 60 + 0) (14 * 60 + 30)).length = 79 ∧
    ((8 * 60 + 0 ≤ 14 * 60 + 30 →
      parseRange 8 0 14 30 = Except.ok (expandRange5 (8 * 60 + 0) (14 * 60 + 30)) ∧
      (expandRange5 (8 * 60 + 0) (14 * 60 + 30)).length =
        ((14 * 60 + 30) - (8 * 60 + 0)) / 5 + 1) ∧
    (14 * 60 + 30 < 8 * 60 + 0 →
      parseRange 8 0 14 30 = Except.error MomentParseError.badRange) ∧
    (8 * 60 + 0 = 14 * 60 + 30 →
      parseRange 8 0 14 30 = Except.ok [8 * 60 + 0])) :=
  ⟨by decide, by decide,
    C6_range_expansion 8 0 14 30 (by decide) (by decide) (by decide) (by decide)⟩

/-- The per-file product assignment of get_filelist_from_path: the products
are tried in order and the inner loop breaks at the first product whose
matcher accepts the file name.  The per-product name tests (band regex and
ACTP substring tests) are abstracted as `matcher`. -/
def assignProduct {P : Type} (products : List P) (matcher : P → String → Bool)
    (fname : String) : Option P :=
  products.find? (fun prod => matcher prod fname)

/-- The candidate list collected for one product: scanning the files in
directory order, a file lands in the list of the product its inner loop
broke at. -/
def candidatos {P : Type} [DecidableEq P] (products : List P)
    (matcher : P → String → Bool) (files : List String) (prod : P) : List String :=
  files.filter (fun f => decide (assignProduct products matcher f = some prod))

/-- Duplicate resolution of get_filelist_from_path: no candidate gives no
entry, a unique candidate is taken, and otherwise candidates whose name
starts with CG_ are preferred, taking the first; with no CG_ candidate the
first match is used. -/
def selectCandidate (cands : List String) : Option String :=
  match cands with
  | [] => none
  | [f] => some f
  | a :: b :: rest =>
    some (((a :: b :: rest).filter (fun f => f.startsWith "CG_")).headD a)

/-- The file the resolver returns for one product. -/
def resolverSelect {P : Type} [DecidableEq P] (products : List P)
    (matcher : P → String → Bool) (files : List String) (prod : P) : Option String :=
  selectCandidate (candidatos products matcher files prod)

theorem selectCandidate_spec (cands : List String) (h2 : 2 ≤ cands.length) :
    ((∃ f ∈ cands, f.startsWith "CG_" = true) →
      ∃ q, selectCandidate cands = some q ∧ q.startsWith "CG_" = true) ∧
    ((∀ f ∈ cands, f.startsWith "CG_" = false) →
      selectCandidate cands = cands.head?) := by
  match cands with
  | [] => simp at h2
  | [f] => simp at h2
  | a :: b :: rest =>
    constructor
    · rintro ⟨f, hf, hcg⟩
      simp only [selectCandidate]
      cases hfil : (a :: b :: rest).filter (fun f => f.startsWith "CG_") with
      | nil =>
        have : f ∈ (a :: b :: rest).filter (fun f => f.startsWith "CG_") :=
          List.mem_filter.mpr ⟨hf, hcg⟩
        rw [hfil] at this
        simp at this
      | cons g gs =>
        refine ⟨g, rfl, ?_⟩
        have : g ∈ (a :: b :: rest).filter (fun f => f.startsWith "CG_") := by
          rw [hfil]
          exact List.mem_cons_self g gs
        exact (List.mem_filter.mp this).2
    · intro hall
      simp only [selectCandidate]
      have hfil : (a :: b :: rest).filter (fun f => f.startsWith "CG_") = [] := by
        rw [List.filter_eq_nil_iff]
        intro f hf
        simp [hall f hf]
      rw [hfil]
      rfl

theorem selectCandidate_mem (cands : List String) (q : String)
    (h : selectCandidate cands = some q) : q ∈ cands := by
  match cands with
  | [] => simp [selectCandidate] at h
  | [f] =>
    simp only [selectCandidate, Option.some.injEq] at h
    simp [h]
  | a :: b :: rest =>
    simp only [selectCandidate] at h
    cases hfil : (a :: b :: rest).filter (fun f => f.startsWith "CG_") with
    | nil =>
      rw [hfil] at h
      simp only [List.headD_nil, Option.some.injEq] at h
      simp [← h]
    | cons g gs =>
      rw [hfil] at h
      simp only [List.headD_cons, Option.some.injEq] at h
      have : g ∈ (a :: b :: rest).filter (fun f => f.startsWith "CG_") := by
        rw [hfil]
        exact List.mem_cons_self g gs
      rw [← h]
      exact List.mem_of_mem_filter this

/-- Claim C7: for every product whose candidate list has two or more files,
if at least one candidate name starts with CG_ then the resolver selects a
CG_ file for that product, regardless of the order in which the directory
listing produced the candidates (the statement quantifies over every file
list); with no CG_ candidate it selects the first match. -/
theorem C7_cg_preference {P : Type} [DecidableEq P] (products : List P)
    (matcher : P → String → Bool) (files : List String) (prod : P)
    (h2 : 2 ≤ (candidatos products matcher files prod).length) :
    ((∃ f ∈ candidatos products matcher files prod, f.startsWith "CG_" = true) →
      ∃ q, resolverSelect products matcher files prod = some q ∧
        q.startsWith "CG_" = true) ∧
    ((∀ f ∈ candidatos products matcher files prod, f.startsWith "CG_" = false) →
      resolverSelect products matcher files prod =
        (candidatos products matcher files prod).head?) :=
  selectCandidate_spec (candidatos products matcher files prod) h2

/-- Witness for C7: one product, two candidates OR_a.nc and CG_b.nc in
directory order. -/
theorem C7_cg_preference_witness :
    2 ≤ (candidatos [0] (fun _ _ => true) (["OR_a.nc", "CG_b.nc"]) 0).length ∧
    (((∃ f ∈ candidatos [0] (fun _ _ => true) (["OR_a.nc", "CG_b.nc"]) 0,
        f.startsWith "CG_" = true) →
      ∃ q, resolverSelect [0] (fun _ _ => true) (["OR_a.nc", "CG_b.nc"]) 0 = some q ∧
        q.startsWith "CG_" = true) ∧
    ((∀ f ∈ candidatos [0] (fun _ _ => true) (["OR_a.nc", "CG_b.nc"]) 0,
        f.startsWith "CG_" = false) →
      resolverSelect [0] (fun _ _ => true) (["OR_a.nc", "CG_b.nc"]) 0 =
        (candidatos [0] (fun _ _ => true) (["OR_a.nc", "CG_b.nc"]) 0).head?)) :=
  ⟨by decide, C7_cg_preference ([0] : List ℕ) (fun _ _ => true)
    (["OR_a.nc", "CG_b.nc"]) 0 (by decide)⟩

/-- Claim C10: every candidate file is assigned to at most one product (the
product loop breaks at the first accepting matcher), so no file appears in
the candidate lists of two different products, and the returned file list
never contains the same path for two products. -/
theorem C10_at_most_one_product {P : Type} [DecidableEq P] (products : List P)
    (matcher : P → String → Bool) (files : List String) (p q : P) (f : String)
    (hne : p ≠ q) :
    (f ∈ candidatos products matcher files p →
      f ∉ candidatos products matcher files q) ∧
    (resolverSelect products matcher files p = some f →
      resolverSelect products matcher files q = some f → False) := by
  have key : f ∈ candidatos products matcher files p →
      f ∉ candidatos products matcher files q := by
    intro hp hq
    have h1 : assignProduct products matcher f = some p := by
      have := (List.mem_filter.mp hp).2
      simpa using this
    have h2 : assignProduct products matcher f = some q := by
      have := (List.mem_filter.mp hq).2
      simpa using this
    rw [h1] at h2
    exact hne (Option.some.injEq _ _ ▸ h2)
  refine ⟨key, ?_⟩
  intro hp hq
  exact key (selectCandidate_mem _ _ hp) (selectCandidate_mem _ _ hq)

/-- Witness for C10: a file matching both products is assigned only to the
first. -/
theorem C10_at_most_one_product_witness :
    (0 : ℕ) ≠ 1 ∧
    (("x.nc" ∈ candidatos [0, 1] (fun _ _ => true) (["x.nc"]) 0 →
      "x.nc" ∉ candidatos [0, 1] (fun _ _ => true) (["x.nc"]) 1) ∧
    (resolverSelect [0, 1] (fun _ _ => true) (["x.nc"]) 0 = some "x.nc" →
      resolverSelect [0, 1] (fun _ _ => true) (["x.nc"]) 1 = some "x.nc" → False)) :=
  ⟨by decide, C10_at_most_one_product ([0, 1] : List ℕ) (fun _ _ => true)
    (["x.nc"]) 0 1 "x.nc" (by decide)⟩

/-- np.round rounds half to even; the int() conversion that follows in the
source is applied to an integral value, so it is the identity. -/
def roundHalfEven (x : ℚ) : ℤ :=
  if x - ⌊x⌋ < 1 / 2 then ⌊x⌋
  else if 1 / 2 < x - ⌊x⌋ then ⌊x⌋ + 1
  else if ⌊x⌋ % 2 = 0 then ⌊x⌋ else ⌊x⌋ + 1

/-- main (reprojection): `dst_width = int(np.round(lon_range / 0.02))` with
`lon_range = lon_max - lon_min` and `target_resolution_deg = 0.02`. -/
def dstWidth (lonMin lonMax : ℚ) : ℤ :=
  roundHalfEven ((lonMax - lonMin) / 0.02)

/-- main (reprojection): `dst_height = int(np.round(lat_range / 0.02))` with
`lat_range = lat_max - lat_min`. -/
def dstHeight (latMin latMax : ℚ) : ℤ :=
  roundHalfEven ((latMax - latMin) / 0.02)

/-- main (reprojection): `exact_lon_res = lon_range / dst_width`. -/
def exactLonRes (lonMin lonMax : ℚ) : ℚ :=
  (lonMax - lonMin) / ((dstWidth lonMin lonMax : ℤ) : ℚ)

/-- main (reprojection): `exact_lat_res = lat_range / dst_height`. -/
def exactLatRes (latMin latMax : ℚ) : ℚ :=
  (latMax - latMin) / ((dstHeight latMin latMax : ℤ) : ℚ)

/-- Claim C8: with the geo-suffixed clip, the target grid rounds
range / 0.02 to integer width and height and back-solves the exact per-axis
resolutions, with affine (res_lon, 0, lon_min, 0, -res_lat, lat_max); hence
the output bounds equal the requested unpadded bbox exactly:
lon_min + width * res_lon = lon_max and lat_max - height * res_lat = lat_min
(arithmetic modelled exactly over the rationals). -/
theorem C8_bbox_exact (lonMin lonMax latMin latMax : ℚ)
    (hw : dstWidth lonMin lonMax ≠ 0) (hh : dstHeight latMin latMax ≠ 0) :
    lonMin + ((dstWidth lonMin lonMax : ℤ) : ℚ) * exactLonRes lonMin lonMax = lonMax ∧
    latMax - ((dstHeight latMin latMax : ℤ) : ℚ) * exactLatRes latMin latMax = latMin := by
  have hw' : ((dstWidth lonMin lonMax : ℤ) : ℚ) ≠ 0 := Int.cast_ne_zero.mpr hw
  have hh' : ((dstHeight latMin latMax : ℤ) : ℚ) ≠ 0 := Int.cast_ne_zero.mpr hh
  constructor
  · unfold exactLonRes
    field_simp
  · unfold exactLatRes
    field_simp

/-- Witness for C8 on the centromex clip region. -/
theorem C8_bbox_exact_witness :
    (dstWidth (-107.2319400) (-93.8363933) ≠ 0 ∧
      dstHeight 14.9386282 22.7180385 ≠ 0) ∧
    ((-107.2319400 : ℚ) + ((dstWidth (-107.2319400) (-93.8363933) : ℤ) : ℚ) *
        exactLonRes (-107.2319400) (-93.8363933) = -93.8363933 ∧
      (22.7180385 : ℚ) - ((dstHeight 14.9386282 22.7180385 : ℤ) : ℚ) *
        exactLatRes 14.9386282 22.7180385 = 14.9386282) :=
  ⟨⟨by unfold dstWidth roundHalfEven; norm_num,
      by unfold dstHeight roundHalfEven; norm_num⟩,
    C8_bbox_exact (-107.2319400) (-93.8363933) 14.9386282 22.7180385
      (by unfold dstWidth roundHalfEven; norm_num)
      (by unfold dstHeight roundHalfEven; norm_num)⟩

/-- Resolved output mode of the processing loop (detect_ash.py:1240-1281):
no output argument (default per-moment file names), the output argument
resolved as a directory (the Bool is the mkdir outcome; the string and
filesystem tests deciding is_directory are abstracted into the resolved
mode), or the output argument resolved as a single file. -/
inductive OutputCfg where
  | defaultDir : OutputCfg
  | outDirectory : Bool → OutputCfg
  | singleFile : OutputCfg

/-- Result of one run of the processing loop: finished normally with the
recorded per-moment outcomes, or aborted by an uncaught exception after the
recorded outcomes. -/
inductive RunResult (M E R : Type) where
  | finished : List (M × Except E R) → RunResult M E R
  | aborted : List (M × Except E R) → RunResult M E R

/-- Prepend one processed moment to a run result. -/
def RunResult.push {M E R : Type} (x : M × Except E R) :
    RunResult M E R → RunResult M E R
  | RunResult.finished l => RunResult.finished (x :: l)
  | RunResult.aborted l => RunResult.aborted (x :: l)

/-- The recorded outcomes of a run. -/
def RunResult.outcomes {M E R : Type} : RunResult M E R → List (M × Except E R)
  | RunResult.finished l => l
  | RunResult.aborted l => l

/-- The per-moment processing loop of detect_ash.py:1235-1299, including its
two early exits: in directory-output mode a failing mkdir re-raises out of
the loop (lines 1260-1263, uncaught, aborting the run), and in single-file
mode the loop breaks at index i > 0 before processing (lines 1273-1275).
Otherwise each valid moment is handed to main inside try/except, a pipeline
exception is recorded and the loop continues with the next moment.  The
pipeline body is abstracted as process, whose error value is the caught
exception. -/
def processLoop {M E R : Type} (process : M → Except E R) (cfg : OutputCfg) :
    ℕ → List M → RunResult M E R
  | _, [] => RunResult.finished []
  | i, m :: rest =>
    match cfg with
    | OutputCfg.outDirectory ok =>
      if ok then RunResult.push (m, process m) (processLoop process cfg (i + 1) rest)
      else RunResult.aborted []
    | OutputCfg.singleFile =>
      if 0 < i then RunResult.finished []
      else RunResult.push (m, process m) (processLoop process cfg (i + 1) rest)
    | OutputCfg.defaultDir =>
      RunResult.push (m, process m) (processLoop process cfg (i + 1) rest)

/-- The whole run: enumerate starts the loop at index 0. -/
def orchestrate {M E R : Type} (process : M → Except E R) (cfg : OutputCfg)
    (ms : List M) : RunResult M E R :=
  processLoop process cfg 0 ms

theorem processLoop_good {M E R : Type} (process : M → Except E R)
    (cfg : OutputCfg)
    (h : cfg = OutputCfg.defaultDir ∨ cfg = OutputCfg.outDirectory true) :
    ∀ (ms : List M) (i : ℕ),
      processLoop process cfg i ms =
        RunResult.finished (ms.map (fun m => (m, process m))) := by
  intro ms
  induction ms with
  | nil => intro i; rcases h with rfl | rfl <;> rfl
  | cons x rest ih =>
    intro i
    rcases h with rfl | rfl <;>
      simp [processLoop, ih (i + 1), RunResult.push]

/-- Counterexample to claim C9 as stated: with the output argument resolved
as a single file and two valid moments, the pipeline exception of the first
moment is caught (the run finishes normally), yet the second moment is
never processed — the loop breaks at i > 0, so the recorded outcomes are a
single entry for a two-moment list. -/
theorem C9_single_file_break_counterexample :
    (fun n : ℕ => if n = 0 then (Except.error "boom" : Except String ℕ)
      else Except.ok n) 0 = Except.error "boom" ∧
    (orchestrate (fun n : ℕ => if n = 0 then (Except.error "boom" : Except String ℕ)
        else Except.ok n) OutputCfg.singleFile [0, 1]).outcomes =
      [(0, Except.error "boom")] ∧
    (orchestrate (fun n : ℕ => if n = 0 then (Except.error "boom" : Except String ℕ)
        else Except.ok n) OutputCfg.singleFile [0, 1]).outcomes.length = 1 ∧
    ([0, 1] : List ℕ).length = 2 :=
  ⟨rfl, rfl, rfl, rfl⟩

/-- Claim C9, corrected: when each moment gets its own output path (no
output argument, or a directory output whose creation succeeds), the run
finishes normally, an exception inside the pipeline for one moment is
caught at the orchestrator boundary, and every subsequent moment in the
list is still processed with the outcome it would have on its own.  (As
stated the claim fails on the source: with a single-file output the loop
breaks after the first valid moment, and a failing output-directory
creation raises uncaught and aborts the run.) -/
theorem C9_error_isolation {M E R : Type} (process : M → Except E R)
    (cfg : OutputCfg) (ms : List M)
    (hcfg : cfg = OutputCfg.defaultDir ∨ cfg = OutputCfg.outDirectory true) :
    orchestrate process cfg ms =
      RunResult.finished ((orchestrate process cfg ms).outcomes) ∧
    (orchestrate process cfg ms).outcomes.length = ms.length ∧
    (∀ (i : ℕ) (m : M), ms[i]? = some m →
      (orchestrate process cfg ms).outcomes[i]? = some (m, process m)) ∧
    (∀ (i j : ℕ) (mi mj : M) (e : E), i < j →
      ms[i]? = some mi → process mi = Except.error e → ms[j]? = some mj →
      (orchestrate process cfg ms).outcomes[j]? = some (mj, process mj)) := by
  have hrun : orchestrate process cfg ms =
      RunResult.finished (ms.map (fun m => (m, process m))) :=
    processLoop_good process cfg hcfg ms 0
  refine ⟨by rw [hrun]; rfl, by rw [hrun]; simp [RunResult.outcomes], ?_, ?_⟩
  · intro i m h
    rw [hrun]
    simp [RunResult.outcomes, List.getElem?_map, h]
  · intro i j mi mj e hij hi hfail hj
    rw [hrun]
    simp [RunResult.outcomes, List.getElem?_map, hj]

/-- Witness for the corrected C9: default output naming, the first of two
moments fails inside the pipeline, the second is still processed with its
own outcome. -/
theorem C9_error_isolation_witness :
    (OutputCfg.defaultDir = OutputCfg.defaultDir ∨
      OutputCfg.defaultDir = OutputCfg.outDirectory true) ∧
    ([0, 1][0]? = some 0 ∧
      (fun n : ℕ => if n = 0 then (Except.error "boom" : Except String ℕ)
        else Except.ok n) 0 = Except.error "boom" ∧
      [0, 1][1]? = some 1 ∧ (0 : ℕ) < 1) ∧
    (orchestrate (fun n : ℕ => if n = 0 then (Except.error "boom" : Except String ℕ)
        else Except.ok n) OutputCfg.defaultDir [0, 1]).outcomes[1]? =
      some (1, (fun n : ℕ => if n = 0 then (Except.error "boom" : Except String ℕ)
        else Except.ok n) 1) :=
  ⟨Or.inl rfl, ⟨rfl, rfl, rfl, by omega⟩,
    (C9_error_isolation
      (fun n : ℕ => if n = 0 then (Except.error "boom" : Except String ℕ)
        else Except.ok n) OutputCfg.defaultDir [0, 1]
      (Or.inl rfl)).2.2.2 0 1 0 1 "boom" (by omega) rfl rfl rfl⟩

end Ceniza
